import Mathlib

/-!
Verification of the macOS source-port build helper (`build.py`).

The development shallowly embeds the script's pure logic and its
filesystem-effecting routines:

* the target registry and the per-target setup routines (`Target`);
* project-name detection over the lines of a `CMakeLists.txt`
  (`Builder._detect_target`, regex `project\s*\(\s*(\w+)\s*\)` with
  `re.IGNORECASE`, modelled over `List Char` for the ASCII fragment);
* the pipeline stages as effect-trace producers (`_create_prefix_directory`,
  `_prepare_source`, `_generate_cmake`, `Target._copy_moltenvk`,
  `_make_package`) together with a small interpreter over a set of
  existing filesystem paths;
* the tar-entry rewriting filter of `_make_package`;
* path resolution of `Builder.__init__`.
-/

namespace ZDeps

/-- Word character class of the regex token `\w` (ASCII fragment:
letters, digits and underscore). -/
def isWordChar (c : Char) : Bool := c.isAlphanum || c == '_'

/-- Whitespace class of the regex token `\s` (Python's six ASCII
whitespace characters). -/
def isSpaceChar (c : Char) : Bool :=
  c == ' ' || c == '\t' || c == '\n' || c == '\r' || c == '\x0b' || c == '\x0c'

/-- Case-insensitive match of a literal pattern at the head of the input
(`re.IGNORECASE` on the ASCII fragment lower-cases both sides); returns
the remaining input on success. -/
def matchLitCI : List Char → List Char → Option (List Char)
  | [], s => some s
  | _ :: _, [] => none
  | p :: ps, c :: cs => if p.toLower == c.toLower then matchLitCI ps cs else none

/-- Attempt the pattern `project\s*\(\s*(\w+)\s*\)` anchored at the start
of `s`; returns the captured group `\w+` on success.  Greedy `\w+` and
`\s*` never need backtracking here because the word, space and `)`
character classes are pairwise disjoint. -/
def matchProjectAt (s : List Char) : Option (List Char) :=
  match matchLitCI "project".data s with
  | none => none
  | some s1 =>
    match s1.dropWhile isSpaceChar with
    | '(' :: s2 =>
      let s3 := s2.dropWhile isSpaceChar
      let w := s3.takeWhile isWordChar
      if w.isEmpty then none
      else
        match (s3.dropWhile isWordChar).dropWhile isSpaceChar with
        | ')' :: _ => some w
        | _ => none
    | _ => none

/-- Search (`re.search`) of the project-declaration pattern in one line: try each
start position from the left, first success wins. -/
def searchProject : List Char → Option (List Char)
  | [] => none
  | c :: cs =>
    match matchProjectAt (c :: cs) with
    | some w => some w
    | none => searchProject cs

/-- The registered target names, exactly the `_setup_` members of class
`Target` in the alphabetical order produced by `dir()`
(`Target.get_target_names`). -/
def Target.get_target_names : List String := ["gzdoom", "lzdoom", "qzdoom", "raze"]

/-- The two unrecoverable failures of `Builder._detect_target`:
`assert project_name` firing, and the registry lookup
`targets[project_name]` raising a key error. -/
inductive DetectError where
  | assertFailed : DetectError
  | keyError (name : String) : DetectError
  deriving DecidableEq

/-- Detection `Builder._detect_target`: scan the lines of `CMakeLists.txt` in order,
take the first line where the project-declaration pattern matches,
lower-case the captured identifier and look it up in the registry. -/
def detect_target (lines : List (List Char)) : Except DetectError String :=
  match lines.findSome? searchProject with
  | none => .error .assertFailed
  | some w =>
    let n := String.mk (w.map Char.toLower)
    if n ∈ Target.get_target_names then .ok n else .error (.keyError n)

example : searchProject "project(Raze)".data = some "Raze".data := by decide
example : searchProject "cmake_minimum_required(VERSION 3.10)".data = none := by decide
example : searchProject "  PROJECT ( GZDoom )  # x".data = some "GZDoom".data := by decide
example : detect_target ["# hi".data, "project( Raze )".data] = .ok "raze" := by rfl
example : detect_target ["project(Quake)".data] = .error (.keyError "quake") := by rfl
example : detect_target ["project()".data] = .error .assertFailed := by rfl

/-- The only post-build hook installed by any setup routine
(`Target._copy_moltenvk`). -/
inductive PostBuildHook where
  | copyMoltenVK : PostBuildHook
  deriving DecidableEq

/-- Class `Target`: one buildable project (`__init__` defaults:
no url, empty cmake option dictionary, no post-build hook). -/
structure Target where
  name : String
  url : Option String := none
  cmake_options : List (String × String) := []
  post_build : Option PostBuildHook := none
  deriving DecidableEq

/-- Constructor `Target.__init__(name)`. -/
def Target.create (name : String) : Target := { name := name }

/-- Python dict assignment `opts[k] = v` on an insertion-ordered
association list: update in place if the key is present, append
otherwise. -/
def setOpt (opts : List (String × String)) (k v : String) : List (String × String) :=
  if opts.any (fun p => p.fst == k) then
    opts.map (fun p => if p.fst == k then (k, v) else p)
  else opts ++ [(k, v)]

/-- The `extra_libs` tuple of `_assign_zdoom_raze_cmake_options`. -/
def extra_libs : List String :=
  ["mpg123", "fluidsynth", "instpatch-1.0", "glib-2.0", "gobject-2.0", "intl",
   "ffi", "pcre", "sndfile", "ogg", "vorbis", "vorbisenc", "FLAC", "opus"]

/-- The linker-flags string: fixed frameworks and `-liconv`, then one
`<lib_path>lib<name>.a` per extra library, space separated. -/
def linkerArgs (lib_path : String) : String :=
  extra_libs.foldl (fun acc lib => acc ++ " " ++ lib_path ++ "lib" ++ lib ++ ".a")
    ("-framework AudioUnit -framework AudioToolbox -framework Carbon " ++
     "-framework CoreAudio -framework CoreMIDI -framework CoreVideo -liconv")

/-- Routine `Target._assign_zdoom_raze_cmake_options`: the shared option-assignment
routine of the four engine forks. -/
def Target.assign_zdoom_raze_cmake_options (include_path lib_path : String)
    (t : Target) : Target :=
  let o0 := t.cmake_options
  let o1 := setOpt o0 "CMAKE_EXE_LINKER_FLAGS" (linkerArgs lib_path)
  let o2 := setOpt o1 "FORCE_INTERNAL_ZLIB" "YES"
  let o3 := setOpt o2 "FORCE_INTERNAL_BZIP2" "YES"
  let o4 := setOpt o3 "PK3_QUIET_ZIPDIR" "YES"
  let o5 := setOpt o4 "DYN_OPENAL" "NO"
  let o6 := setOpt o5 "OPENAL_INCLUDE_DIR" include_path
  let o7 := setOpt o6 "OPENAL_LIBRARY" (lib_path ++ "libopenal.a")
  { t with cmake_options := o7 }

/-- Setup routine `Target._setup_gzdoom`. -/
def Target.setup_gzdoom (include_path lib_path : String) (t : Target) : Target :=
  Target.assign_zdoom_raze_cmake_options include_path lib_path
    { t with url := some "https://github.com/coelckers/gzdoom.git",
             post_build := some .copyMoltenVK }

/-- Setup routine `Target._setup_qzdoom`. -/
def Target.setup_qzdoom (include_path lib_path : String) (t : Target) : Target :=
  Target.assign_zdoom_raze_cmake_options include_path lib_path
    { t with url := some "https://github.com/madame-rachelle/qzdoom.git",
             post_build := some .copyMoltenVK }

/-- Setup routine `Target._setup_lzdoom`. -/
def Target.setup_lzdoom (include_path lib_path : String) (t : Target) : Target :=
  Target.assign_zdoom_raze_cmake_options include_path lib_path
    { t with url := some "https://github.com/drfrag666/gzdoom.git" }

/-- Setup routine `Target._setup_raze`. -/
def Target.setup_raze (include_path lib_path : String) (t : Target) : Target :=
  Target.assign_zdoom_raze_cmake_options include_path lib_path
    { t with url := some "https://github.com/coelckers/Raze.git" }

/-- Dispatch `Target.setup`: dynamic lookup `getattr(Target, '_setup_' + name)`;
the attribute exists exactly for the registered names (the registry is
derived from these very methods), any other name raises. -/
def Target.setup (include_path lib_path : String) (t : Target) : Option Target :=
  match t.name with
  | "gzdoom" => some (Target.setup_gzdoom include_path lib_path t)
  | "lzdoom" => some (Target.setup_lzdoom include_path lib_path t)
  | "qzdoom" => some (Target.setup_qzdoom include_path lib_path t)
  | "raze" => some (Target.setup_raze include_path lib_path t)
  | _ => none

example :
    (Target.get_target_names.all (fun n =>
      match Target.setup "I/" "L/" (Target.create n) with
      | some t => t.cmake_options.length == 7
      | none => false)) = true := by rfl

/-! ### Filesystem effects

The stages are embedded as producers of effect traces, interpreted over
a record of existing filesystem paths.  `os.sep` is `/` on the script's
single supported host. -/

/-- Path separator `os.sep`. -/
def osSep : String := "/"

/-- One externally visible action of a pipeline stage. -/
inductive Eff where
  | rmtree (path : String) : Eff
  | makedirs (path : String) : Eff
  | makedirsExistOk (path : String) : Eff
  | symlink (src dst : String) : Eff
  | copyFile (src dst : String) : Eff
  | gitClone (url dst : String) : Eff
  | gitCheckout (commit cwd : String) : Eff
  | setEnvPath : Eff
  | runCMake (args : List String) (cwd : String) : Eff
  | openProject (name cwd : String) : Eff
  | runMake (cwd : String) : Eff
  | gitDescribe (cwd : String) : Eff
  | removeFile (path : String) : Eff
  | addToArchive (archive path : String) : Eff
  deriving DecidableEq

/-- Whether `p` is a string prefix of `q`. -/
def strPre (p q : String) : Bool := p.data.isPrefixOf q.data

/-- Model of `os.path.exists`: the recorded paths are the created leaves
(slash-terminated directories, symlink and file paths); a path exists
when some recorded path extends it, so ancestors of created directories
exist as well. -/
def pathExists (fs : List String) (p : String) : Bool :=
  fs.any (fun q => strPre p q)

/-- Interpret one effect: `os.makedirs` without `exist_ok` fails on an
existing path, `os.symlink` fails on an existing destination,
`shutil.rmtree` removes the whole subtree, process launches leave the
filesystem unchanged. -/
def applyEff (fs : List String) : Eff → Except Unit (List String)
  | .rmtree p => .ok (fs.filter (fun q => !(strPre p q)))
  | .makedirs p => if pathExists fs p then .error () else .ok (p :: fs)
  | .makedirsExistOk p => .ok (p :: fs)
  | .symlink _ dst => if pathExists fs dst then .error () else .ok (dst :: fs)
  | .copyFile _ dst => .ok (dst :: fs)
  | .gitClone _ dst => .ok (dst :: fs)
  | _ => .ok fs

/-- Run a trace of effects from a filesystem state. -/
def runEffs (fs : List String) : List Eff → Except Unit (List String)
  | [] => .ok fs
  | e :: es =>
    match applyEff fs e with
    | .error u => .error u
    | .ok fs1 => runEffs fs1 es

/-- Paths brought into existence by one effect. -/
def createdBy : Eff → List String
  | .makedirs p => [p]
  | .makedirsExistOk p => [p]
  | .symlink _ dst => [dst]
  | .copyFile _ dst => [dst]
  | .gitClone _ dst => [dst]
  | _ => []

/-! ### Prefix preparation (`Builder._create_prefix_directory`) -/

/-- What `os.scandir(self.deps_path)` reports about one dependency entry:
its path, whether it is a directory, whether its `include`/`lib`
subdirectories exist, and the entry names inside each. -/
structure DepEntry where
  path : String
  is_dir : Bool
  hasIncludeDir : Bool
  hasLibDir : Bool
  includeEntries : List String
  libEntries : List String
  deriving DecidableEq

/-- The symlink effects contributed by one dependency: nothing unless it
is a directory holding both an `include` and a `lib` subdirectory,
otherwise one symlink per entry of each into the prefix trees. -/
def depLinkEffects (include_path lib_path : String) (dep : DepEntry) : List Eff :=
  if !dep.is_dir then []
  else if !dep.hasIncludeDir || !dep.hasLibDir then []
  else
    dep.includeEntries.map (fun e =>
      Eff.symlink (dep.path ++ osSep ++ "include" ++ osSep ++ e) (include_path ++ e))
    ++ dep.libEntries.map (fun e =>
      Eff.symlink (dep.path ++ osSep ++ "lib" ++ osSep ++ e) (lib_path ++ e))

/-- The effect trace of `Builder._create_prefix_directory`, given whether
`os.path.exists(self.prefix_path)` held on entry: return immediately when
the prefix exists and no rebuild was requested; otherwise remove an
existing prefix, create the `include` and `lib` trees and link every
eligible dependency in. -/
def create_prefix_directory_effects (rebuild_flag exists0 : Bool)
    (prefix_path include_path lib_path : String) (deps : List DepEntry) : List Eff :=
  if exists0 && !rebuild_flag then []
  else
    (if exists0 then [Eff.rmtree prefix_path] else [])
    ++ [Eff.makedirs include_path, Eff.makedirs lib_path]
    ++ deps.flatMap (depLinkEffects include_path lib_path)

/-- Stage `Builder._create_prefix_directory` run against a filesystem state. -/
def create_prefix_directory (rebuild_flag : Bool) (prefix_path : String)
    (deps : List DepEntry) (fs : List String) : Except Unit (List String) :=
  runEffs fs (create_prefix_directory_effects rebuild_flag (pathExists fs prefix_path)
    prefix_path (prefix_path ++ "include" ++ osSep) (prefix_path ++ "lib" ++ osSep) deps)

/-! ### Source preparation, generation, compilation, post-build -/

/-- The effect trace of `Builder._prepare_source`. -/
def prepare_source_effects (sourceExists : Bool) (url : String)
    (checkout_commit : Option String) (source_path : String) : List Eff :=
  (if sourceExists then [] else [Eff.gitClone url source_path])
  ++ (match checkout_commit with
      | some c => [Eff.gitCheckout c source_path]
      | none => [])

/-- The generator argument vector assembled by `Builder._generate_cmake`. -/
def cmakeArgs (xcode : Bool) (prefix_path : String) (sdk_path : Option String)
    (opts : List (String × String)) (source_path : String) : List String :=
  ["cmake", if xcode then "-GXcode" else "-GUnix Makefiles",
   "-DCMAKE_BUILD_TYPE=Release", "-DCMAKE_PREFIX_PATH=" ++ prefix_path]
  ++ (match sdk_path with
      | some s => ["-DCMAKE_OSX_SYSROOT=" ++ s]
      | none => [])
  ++ opts.map (fun kv => "-D" ++ kv.fst ++ "=" ++ kv.snd)
  ++ [source_path]

/-- The effect trace of `Builder._generate_cmake`: nothing at all when
generation is disabled; otherwise augment `PATH`, create the build
directory (`exist_ok=True`) and run the generator there. -/
def generate_cmake_effects (generate xcode : Bool)
    (build_path prefix_path source_path : String) (sdk_path : Option String)
    (opts : List (String × String)) : List Eff :=
  if !generate then []
  else [Eff.setEnvPath, Eff.makedirsExistOk build_path,
        Eff.runCMake (cmakeArgs xcode prefix_path sdk_path opts source_path) build_path]

/-- Hook `Target._copy_moltenvk` on a filesystem state: compute the bundle's
executable directory (with the `Debug` configuration inserted in IDE
mode), create it with `exist_ok=True`, then place `libMoltenVK.dylib`
there — symlink in IDE mode, copy otherwise — only when the destination
file does not already exist.  Returns the new state and the effect
trace. -/
def moltenVKDstDir (xcode : Bool) (build_path target_name : String) : String :=
  (build_path ++ (if xcode then "Debug" ++ osSep else ""))
    ++ target_name ++ ".app/Contents/MacOS" ++ osSep

def copy_moltenvk (xcode : Bool) (build_path target_name lib_path : String)
    (fs : List String) : List String × List Eff :=
  let dstDir := moltenVKDstDir xcode build_path target_name
  let fs1 := dstDir :: fs
  let dst := dstDir ++ "libMoltenVK.dylib"
  let src := lib_path ++ "libMoltenVK.dylib"
  if pathExists fs1 dst then (fs1, [Eff.makedirsExistOk dstDir])
  else (dst :: fs1,
    [Eff.makedirsExistOk dstDir,
     if xcode then Eff.symlink src dst else Eff.copyFile src dst])

/-! ### Packaging (`Builder._make_package`) -/

/-- The effect trace of `Builder._make_package`: nothing when packaging
was not requested or in IDE mode; otherwise read the version tag, remove
a pre-existing archive of the computed name, and archive the app
bundle. -/
def make_package_effects (create_package xcode : Bool)
    (build_path target_name source_path version : String)
    (archiveExists : Bool) : List Eff :=
  if !create_package || xcode then []
  else
    let package_path := build_path ++ target_name ++ "-" ++ version ++ ".tar.bz2"
    Eff.gitDescribe source_path
    :: (if archiveExists then [Eff.removeFile package_path] else [])
    ++ [Eff.addToArchive package_path (build_path ++ target_name ++ ".app")]

/-- The mutable tar-entry metadata touched by `tar_filter`
(name, owner and group names and ids), over `List Char` like Python
strings. -/
structure TarEntryInfo where
  name : List Char
  uname : List Char
  gname : List Char
  uid : Nat
  gid : Nat
  deriving DecidableEq

/-- The `tar_filter` closure of `_make_package`: slice the entry name
from `name_pos` on and force the neutral root ownership. -/
def tar_filter (name_pos : Nat) (ti : TarEntryInfo) : TarEntryInfo :=
  { name := ti.name.drop name_pos,
    uname := "root".data, gname := "root".data, uid := 0, gid := 0 }

/-- The member name `tarfile` gives an added path before any filter runs:
leading slashes are stripped. -/
def tarMemberName (path : List Char) : List Char :=
  path.dropWhile (fun c => c == '/')

/-- One archive entry as produced by `package.add(..., filter=tar_filter)`
for the file at `entryPath`, with `name_pos = len(self.build_path) - 1`
exactly as in `_make_package`. -/
def packageEntry (build_path entryPath : List Char)
    (uname gname : List Char) (uid gid : Nat) : TarEntryInfo :=
  tar_filter (build_path.length - 1)
    { name := tarMemberName entryPath, uname := uname, gname := gname,
      uid := uid, gid := gid }

/-! ### Path resolution (`Builder.__init__`) -/

/-- The argparse results consumed by `Builder.__init__` that feed path
resolution. -/
structure ParsedArgs where
  target : Option String
  source_path : Option String
  build_path : Option String
  xcode : Bool
  deriving DecidableEq

/-- The path-resolution part of `Builder.__init__`: pick the source
directory (default under `<root>/source/<name>` for a named target,
else the user-supplied path with the target detected from its
`CMakeLists.txt` lines), default the build directory to
`<root>/build/<name>/<xcode|make>`, then append `os.sep` to both.
Returns `(target name, source_path, build_path)`. -/
def builder_resolve_paths (root_path : String) (args : ParsedArgs)
    (cmakeLines : List (List Char)) : Except DetectError (String × String × String) :=
  let picked : Except DetectError (String × String) :=
    match args.target with
    | some t => .ok (t, root_path ++ "source" ++ osSep ++ t)
    | none =>
      match args.source_path with
      | none => .error .assertFailed
      | some sp =>
        match detect_target cmakeLines with
        | .ok t => .ok (t, sp)
        | .error e => .error e
  match picked with
  | .error e => .error e
  | .ok (t, src) =>
    let bp :=
      match args.build_path with
      | some b => b
      | none => root_path ++ "build" ++ osSep ++ t ++ osSep
          ++ (if args.xcode then "xcode" else "make")
    .ok (t, src ++ osSep, bp ++ osSep)

/-! ### Helper lemmas -/

lemma isPrefixOf_append_self (l t : List Char) : l.isPrefixOf (l ++ t) = true := by
  induction l with
  | nil => simp [List.isPrefixOf]
  | cons a as ih => simp [List.isPrefixOf, ih]

lemma strPre_self_append (p t : String) : strPre p (p ++ t) = true := by
  show (p.data.isPrefixOf (p.data ++ t.data)) = true
  exact isPrefixOf_append_self _ _

lemma pathExists_cons (fs : List String) (x p : String) :
    pathExists (x :: fs) p = (strPre p x || pathExists fs p) := by
  simp [pathExists]

lemma pathExists_of_mem (fs : List String) (q p : String)
    (hq : q ∈ fs) (h : strPre p q = true) : pathExists fs p = true := by
  simp only [pathExists, List.any_eq_true]
  exact ⟨q, hq, h⟩

/-- C7: in IDE-project (xcode) mode the packaging operation performs
nothing at all, even when packaging was requested: no version read, no
archive removal, no archive creation. -/
theorem make_package_skipped_in_xcode :
    ∀ (create_package : Bool) (build_path target_name source_path version : String)
      (archiveExists : Bool),
      make_package_effects create_package true build_path target_name source_path
        version archiveExists = [] := by
  intro cp bp tn sp v ae
  simp [make_package_effects]

/-- C2: for a build directory `/…/` (a single leading slash) every
archive entry produced under the filter has its name equal to the entry
path with the build-directory prefix stripped, and its ownership forced
to user/group `root`, uid/gid `0`, whatever the original ownership
was. -/
theorem package_entry_normalized :
    ∀ (bp suffix uname gname : List Char) (uid gid : Nat),
      bp ≠ [] → bp.head? ≠ some '/' →
      packageEntry ('/' :: bp) (('/' :: bp) ++ suffix) uname gname uid gid
        = ⟨suffix, "root".data, "root".data, 0, 0⟩ := by
  intro bp suffix un gn uid gid hne hh
  obtain ⟨b, bs, rfl⟩ := List.exists_cons_of_ne_nil hne
  have hb : (b == '/') = false := by
    simp only [List.head?, ne_eq, Option.some.injEq] at hh
    simp [hh]
  have h1 : tarMemberName (('/' :: b :: bs) ++ suffix) = (b :: bs) ++ suffix := by
    simp [tarMemberName, List.dropWhile_cons, hb]
  simp only [packageEntry, tar_filter, h1, TarEntryInfo.mk.injEq, and_true]
  have h2 : ('/' :: b :: bs).length - 1 = (b :: bs).length := by simp
  rw [h2]
  exact List.drop_left _ _

/-- C4: when the runtime library already exists at its destination inside
the app bundle, the post-build hook only performs the `exist_ok`
directory creation: no copy, no symlink, and it completes without
error. -/
theorem copy_moltenvk_idempotent :
    ∀ (xcode : Bool) (build_path target_name lib_path : String) (fs : List String),
      pathExists fs (moltenVKDstDir xcode build_path target_name ++ "libMoltenVK.dylib") = true →
      copy_moltenvk xcode build_path target_name lib_path fs
        = (moltenVKDstDir xcode build_path target_name :: fs,
           [Eff.makedirsExistOk (moltenVKDstDir xcode build_path target_name)]) := by
  intro xcode bp tn lp fs h
  have h1 : pathExists (moltenVKDstDir xcode bp tn :: fs)
      (moltenVKDstDir xcode bp tn ++ "libMoltenVK.dylib") = true := by
    rw [pathExists_cons, h, Bool.or_true]
  simp [copy_moltenvk, moltenVKDstDir] at h1 ⊢
  exact h1

/-- C9: whenever `Builder.__init__`'s path resolution succeeds — whatever
the argument combination — the source path and the build path it
produces both end with the path separator. -/
theorem resolved_paths_end_with_sep :
    ∀ (root_path : String) (args : ParsedArgs) (cmakeLines : List (List Char))
      (t source_path build_path : String),
      builder_resolve_paths root_path args cmakeLines = .ok (t, source_path, build_path) →
      source_path.data.getLast? = some '/' ∧ build_path.data.getLast? = some '/' := by
  intro root args lines t sp bp h
  have key : ∀ s : String, (s ++ osSep).data.getLast? = some '/' := by
    intro s
    show (s.data ++ ['/']).getLast? = some '/'
    exact List.getLast?_concat _
  unfold builder_resolve_paths at h
  rcases args with ⟨tgt, srcp, bld, xc⟩
  dsimp at h
  cases tgt with
  | some tname =>
    cases bld with
    | some b =>
      simp only [Except.ok.injEq, Prod.mk.injEq] at h
      rw [← h.2.1, ← h.2.2]
      exact ⟨key _, key _⟩
    | none =>
      simp only [Except.ok.injEq, Prod.mk.injEq] at h
      rw [← h.2.1, ← h.2.2]
      exact ⟨key _, key _⟩
  | none =>
    cases srcp with
    | none => exact absurd h (by simp)
    | some spath =>
      cases hdet : detect_target lines with
      | error e => rw [hdet] at h; exact absurd h (by simp)
      | ok tname =>
        rw [hdet] at h
        cases bld with
        | some b =>
          simp only [Except.ok.injEq, Prod.mk.injEq] at h
          rw [← h.2.1, ← h.2.2]
          exact ⟨key _, key _⟩
        | none =>
          simp only [Except.ok.injEq, Prod.mk.injEq] at h
          rw [← h.2.1, ← h.2.2]
          exact ⟨key _, key _⟩

/-- C9 witness: a run with `--target gzdoom` and no overrides. -/
theorem resolved_paths_end_with_sep_witness :
    "/r/source/gzdoom/".data.getLast? = some '/' ∧
    "/r/build/gzdoom/make/".data.getLast? = some '/' :=
  resolved_paths_end_with_sep "/r/" ⟨some "gzdoom", none, none, false⟩ []
    "gzdoom" "/r/source/gzdoom/" "/r/build/gzdoom/make/" (by rfl)

/-- C2 witness: a concrete entry of the gzdoom bundle under the build
directory of the spec's example, added by a non-root invoking user. -/
theorem package_entry_normalized_witness :
    ("x/y/build/foo/make/".data ≠ [] ∧ "x/y/build/foo/make/".data.head? ≠ some '/') ∧
    packageEntry ('/' :: "x/y/build/foo/make/".data)
      (('/' :: "x/y/build/foo/make/".data) ++ "foo.app/Contents/Info.plist".data)
      "alice".data "staff".data 501 20
      = ⟨"foo.app/Contents/Info.plist".data, "root".data, "root".data, 0, 0⟩ :=
  ⟨⟨by decide, by decide⟩, package_entry_normalized _ _ _ _ _ _ (by decide) (by decide)⟩

/-- C4 witness: re-running the hook when the dylib is already in the
bundle. -/
theorem copy_moltenvk_idempotent_witness :
    pathExists ["B/gzdoom.app/Contents/MacOS/libMoltenVK.dylib"]
      (moltenVKDstDir false "B/" "gzdoom" ++ "libMoltenVK.dylib") = true ∧
    copy_moltenvk false "B/" "gzdoom" "L/"
        ["B/gzdoom.app/Contents/MacOS/libMoltenVK.dylib"]
      = (moltenVKDstDir false "B/" "gzdoom"
           :: ["B/gzdoom.app/Contents/MacOS/libMoltenVK.dylib"],
         [Eff.makedirsExistOk (moltenVKDstDir false "B/" "gzdoom")]) :=
  ⟨by rfl, copy_moltenvk_idempotent false "B/" "gzdoom" "L/" _ (by rfl)⟩

/-- C5 counterexample: contrary to the claim that some registered target
has no explicit configurator and is left with empty `buildOptions`,
every one of the (exactly four) registered targets has a setup routine
and ends configuration with the seven options of the shared
option-assignment routine. -/
theorem setup_no_unconfigured_target :
    (Target.get_target_names.all (fun n =>
      match Target.setup "I/" "L/" (Target.create n) with
      | some t => t.cmake_options.length == 7
      | none => false)) = true ∧ Target.get_target_names.length = 4 := by
  exact ⟨by rfl, by rfl⟩

/-- C5 amended: every registered target (the four game-engine forks) has
an explicit configurator, and each of them is configured by the shared
option-assignment routine `_assign_zdoom_raze_cmake_options`; no
registered target is left with empty `buildOptions`. -/
theorem setup_all_targets_shared_options :
    ∀ N ∈ Target.get_target_names, ∀ include_path lib_path : String,
      ∃ t : Target,
        Target.setup include_path lib_path (Target.create N) = some t ∧
        t.cmake_options
          = (Target.assign_zdoom_raze_cmake_options include_path lib_path
              (Target.create N)).cmake_options ∧
        t.cmake_options ≠ [] := by
  intro N hN ip lp
  fin_cases hN <;> refine ⟨_, rfl, rfl, ?_⟩ <;>
    simp [Target.setup_gzdoom, Target.setup_lzdoom, Target.setup_qzdoom,
      Target.setup_raze, Target.assign_zdoom_raze_cmake_options, setOpt, Target.create]

/-- C5 amended, witness at the first registered target. -/
theorem setup_all_targets_shared_options_witness :
    ("gzdoom" ∈ Target.get_target_names) ∧
    ∃ t : Target,
      Target.setup "I/" "L/" (Target.create "gzdoom") = some t ∧
      t.cmake_options
        = (Target.assign_zdoom_raze_cmake_options "I/" "L/"
            (Target.create "gzdoom")).cmake_options ∧
      t.cmake_options ≠ [] :=
  ⟨by decide, setup_all_targets_shared_options "gzdoom" (by decide) "I/" "L/"⟩

/-! ### Interpreter lemmas -/

lemma applyEff_ok_mem (e : Eff) (fs fs1 : List String)
    (h : applyEff fs e = .ok fs1) : ∀ q ∈ fs1, q ∈ fs ∨ q ∈ createdBy e := by
  intro q hq
  cases e with
  | rmtree p =>
    simp only [applyEff, Except.ok.injEq] at h
    subst h
    exact Or.inl (List.mem_of_mem_filter hq)
  | makedirs p =>
    simp only [applyEff] at h
    split at h
    · cases h
    · simp only [Except.ok.injEq] at h
      subst h
      rcases List.mem_cons.mp hq with rfl | hq
      · exact Or.inr (by simp [createdBy])
      · exact Or.inl hq
  | makedirsExistOk p =>
    simp only [applyEff, Except.ok.injEq] at h
    subst h
    rcases List.mem_cons.mp hq with rfl | hq
    · exact Or.inr (by simp [createdBy])
    · exact Or.inl hq
  | symlink s d =>
    simp only [applyEff] at h
    split at h
    · cases h
    · simp only [Except.ok.injEq] at h
      subst h
      rcases List.mem_cons.mp hq with rfl | hq
      · exact Or.inr (by simp [createdBy])
      · exact Or.inl hq
  | copyFile s d =>
    simp only [applyEff, Except.ok.injEq] at h
    subst h
    rcases List.mem_cons.mp hq with rfl | hq
    · exact Or.inr (by simp [createdBy])
    · exact Or.inl hq
  | gitClone u d =>
    simp only [applyEff, Except.ok.injEq] at h
    subst h
    rcases List.mem_cons.mp hq with rfl | hq
    · exact Or.inr (by simp [createdBy])
    · exact Or.inl hq
  | gitCheckout c cw => simp only [applyEff, Except.ok.injEq] at h; subst h; exact Or.inl hq
  | setEnvPath => simp only [applyEff, Except.ok.injEq] at h; subst h; exact Or.inl hq
  | runCMake a cw => simp only [applyEff, Except.ok.injEq] at h; subst h; exact Or.inl hq
  | openProject n cw => simp only [applyEff, Except.ok.injEq] at h; subst h; exact Or.inl hq
  | runMake cw => simp only [applyEff, Except.ok.injEq] at h; subst h; exact Or.inl hq
  | gitDescribe cw => simp only [applyEff, Except.ok.injEq] at h; subst h; exact Or.inl hq
  | removeFile p => simp only [applyEff, Except.ok.injEq] at h; subst h; exact Or.inl hq
  | addToArchive a p => simp only [applyEff, Except.ok.injEq] at h; subst h; exact Or.inl hq

lemma applyEff_mono (e : Eff) (fs fs1 : List String)
    (hne : ∀ p, e ≠ .rmtree p) (h : applyEff fs e = .ok fs1) : ∀ q ∈ fs, q ∈ fs1 := by
  intro q hq
  cases e with
  | rmtree p => exact absurd rfl (hne p)
  | makedirs p =>
    simp only [applyEff] at h
    split at h
    · cases h
    · simp only [Except.ok.injEq] at h; subst h; exact List.mem_cons_of_mem _ hq
  | makedirsExistOk p =>
    simp only [applyEff, Except.ok.injEq] at h; subst h; exact List.mem_cons_of_mem _ hq
  | symlink s d =>
    simp only [applyEff] at h
    split at h
    · cases h
    · simp only [Except.ok.injEq] at h; subst h; exact List.mem_cons_of_mem _ hq
  | copyFile s d =>
    simp only [applyEff, Except.ok.injEq] at h; subst h; exact List.mem_cons_of_mem _ hq
  | gitClone u d =>
    simp only [applyEff, Except.ok.injEq] at h; subst h; exact List.mem_cons_of_mem _ hq
  | gitCheckout c cw => simp only [applyEff, Except.ok.injEq] at h; subst h; exact hq
  | setEnvPath => simp only [applyEff, Except.ok.injEq] at h; subst h; exact hq
  | runCMake a cw => simp only [applyEff, Except.ok.injEq] at h; subst h; exact hq
  | openProject n cw => simp only [applyEff, Except.ok.injEq] at h; subst h; exact hq
  | runMake cw => simp only [applyEff, Except.ok.injEq] at h; subst h; exact hq
  | gitDescribe cw => simp only [applyEff, Except.ok.injEq] at h; subst h; exact hq
  | removeFile p => simp only [applyEff, Except.ok.injEq] at h; subst h; exact hq
  | addToArchive a p => simp only [applyEff, Except.ok.injEq] at h; subst h; exact hq

lemma runEffs_ok_mem : ∀ (effs : List Eff) (fs fs1 : List String),
    runEffs fs effs = .ok fs1 → ∀ q ∈ fs1, q ∈ fs ∨ q ∈ effs.flatMap createdBy := by
  intro effs
  induction effs with
  | nil =>
    intro fs fs1 h q hq
    simp only [runEffs, Except.ok.injEq] at h
    subst h
    exact Or.inl hq
  | cons e es ih =>
    intro fs fs1 h q hq
    simp only [runEffs] at h
    cases he : applyEff fs e with
    | error u => rw [he] at h; cases h
    | ok fs2 =>
      rw [he] at h
      rcases ih fs2 fs1 h q hq with h2 | h2
      · rcases applyEff_ok_mem e fs fs2 he q h2 with h3 | h3
        · exact Or.inl h3
        · exact Or.inr (by simp only [List.flatMap_cons, List.mem_append]; exact Or.inl h3)
      · exact Or.inr (by simp only [List.flatMap_cons, List.mem_append]; exact Or.inr h2)

lemma runEffs_mono : ∀ (effs : List Eff) (fs fs1 : List String),
    (∀ p, Eff.rmtree p ∉ effs) → runEffs fs effs = .ok fs1 → ∀ q ∈ fs, q ∈ fs1 := by
  intro effs
  induction effs with
  | nil =>
    intro fs fs1 _ h q hq
    simp only [runEffs, Except.ok.injEq] at h
    subst h
    exact hq
  | cons e es ih =>
    intro fs fs1 hrm h q hq
    simp only [runEffs] at h
    cases he : applyEff fs e with
    | error u => rw [he] at h; cases h
    | ok fs2 =>
      rw [he] at h
      have hne : ∀ p, e ≠ .rmtree p := by
        intro p hp
        exact hrm p (hp ▸ List.mem_cons_self e es)
      have hrm2 : ∀ p, Eff.rmtree p ∉ es := by
        intro p hp
        exact hrm p (List.mem_cons_of_mem _ hp)
      exact ih fs2 fs1 hrm2 h q (applyEff_mono e fs fs2 hne he q hq)

lemma depLink_no_rmtree (include_path lib_path : String) (dep : DepEntry) (p : String) :
    Eff.rmtree p ∉ depLinkEffects include_path lib_path dep := by
  intro hp
  unfold depLinkEffects at hp
  split at hp
  · simp at hp
  · split at hp
    · simp at hp
    · rcases List.mem_append.mp hp with h | h <;>
        rcases List.mem_map.mp h with ⟨e, _, he⟩ <;> cases he

lemma runEffs_cons_makedirs (p : String) (es : List Eff) (fs fs1 : List String)
    (h : runEffs fs (Eff.makedirs p :: es) = .ok fs1) :
    pathExists fs p = false ∧ runEffs (p :: fs) es = .ok fs1 := by
  simp only [runEffs, applyEff] at h
  cases hc : pathExists fs p with
  | true => rw [hc] at h; simp at h
  | false => rw [hc] at h; simp at h; exact ⟨rfl, h⟩

lemma strPre_self_append2 (p a b : String) : strPre p (p ++ a ++ b) = true := by
  show p.data.isPrefixOf ((p.data ++ a.data) ++ b.data) = true
  rw [List.append_assoc]
  exact isPrefixOf_append_self _ _

/-- C3: with the rebuild flag unset, prefix preparation on an existing
prefix produces an empty effect trace and leaves the filesystem
untouched; consequently a second run after any successful run mutates
nothing. -/
theorem create_prefix_directory_idempotent :
    ∀ (prefix_path : String) (deps : List DepEntry) (fs : List String),
      (pathExists fs prefix_path = true →
        create_prefix_directory_effects false (pathExists fs prefix_path) prefix_path
          (prefix_path ++ "include" ++ osSep) (prefix_path ++ "lib" ++ osSep) deps = [] ∧
        create_prefix_directory false prefix_path deps fs = .ok fs)
      ∧ (∀ fs1, create_prefix_directory false prefix_path deps fs = .ok fs1 →
          create_prefix_directory false prefix_path deps fs1 = .ok fs1) := by
  intro pp deps fs
  have skip : ∀ gs : List String, pathExists gs pp = true →
      create_prefix_directory_effects false (pathExists gs pp) pp
        (pp ++ "include" ++ osSep) (pp ++ "lib" ++ osSep) deps = [] ∧
      create_prefix_directory false pp deps gs = .ok gs := by
    intro gs hex
    have he : create_prefix_directory_effects false (pathExists gs pp) pp
        (pp ++ "include" ++ osSep) (pp ++ "lib" ++ osSep) deps = [] := by
      simp [create_prefix_directory_effects, hex]
    refine ⟨he, ?_⟩
    unfold create_prefix_directory
    rw [he]
    rfl
  refine ⟨skip fs, ?_⟩
  intro fs1 h
  by_cases hex : pathExists fs pp = true
  · have he := (skip fs hex).2
    rw [he] at h
    simp only [Except.ok.injEq] at h
    subst h
    exact (skip fs hex).2
  · have hex0 : pathExists fs pp = false := by
      cases hb : pathExists fs pp
      · rfl
      · exact absurd hb hex
    unfold create_prefix_directory at h
    rw [hex0] at h
    have hE : create_prefix_directory_effects false false pp
        (pp ++ "include" ++ osSep) (pp ++ "lib" ++ osSep) deps
        = Eff.makedirs (pp ++ "include" ++ osSep) :: Eff.makedirs (pp ++ "lib" ++ osSep)
          :: deps.flatMap (depLinkEffects (pp ++ "include" ++ osSep) (pp ++ "lib" ++ osSep)) := by
      simp [create_prefix_directory_effects]
    rw [hE] at h
    obtain ⟨hinc, h3⟩ := runEffs_cons_makedirs _ _ _ _ h
    have hrm : ∀ p, Eff.rmtree p
        ∉ (Eff.makedirs (pp ++ "lib" ++ osSep)
            :: deps.flatMap (depLinkEffects (pp ++ "include" ++ osSep) (pp ++ "lib" ++ osSep))) := by
      intro p hp
      rcases List.mem_cons.mp hp with hp | hp
      · cases hp
      · rcases List.mem_flatMap.mp hp with ⟨d, _, hd⟩
        exact depLink_no_rmtree _ _ d p hd
    have hmem : (pp ++ "include" ++ osSep) ∈ fs1 :=
      runEffs_mono _ _ _ hrm h3 _ (List.mem_cons_self _ _)
    have hex1 : pathExists fs1 pp = true :=
      pathExists_of_mem fs1 _ pp hmem (strPre_self_append2 pp "include" osSep)
    exact (skip fs1 hex1).2

/-- C3 witness: a prefix that already exists (its `include` tree is
recorded) with one dependency present. -/
theorem create_prefix_directory_idempotent_witness :
    pathExists ["/r/prefix/include/"] "/r/prefix/" = true ∧
    create_prefix_directory false "/r/prefix/"
      [⟨"/r/deps/zlib", true, true, true, ["zlib.h"], ["libz.a"]⟩]
      ["/r/prefix/include/"] = .ok ["/r/prefix/include/"] :=
  ⟨by rfl,
   ((create_prefix_directory_idempotent "/r/prefix/"
      [⟨"/r/deps/zlib", true, true, true, ["zlib.h"], ["libz.a"]⟩]
      ["/r/prefix/include/"]).1 (by rfl)).2⟩

lemma depLinkEffects_eq_nil (include_path lib_path : String) (dep : DepEntry)
    (h : (dep.is_dir && dep.hasIncludeDir && dep.hasLibDir) = false) :
    depLinkEffects include_path lib_path dep = [] := by
  cases h1 : dep.is_dir <;> cases h2 : dep.hasIncludeDir <;> cases h3 : dep.hasLibDir <;>
    simp_all [depLinkEffects]

lemma flatMap_depLink_filter (include_path lib_path : String) (deps : List DepEntry) :
    deps.flatMap (depLinkEffects include_path lib_path)
      = (deps.filter (fun d => d.is_dir && d.hasIncludeDir && d.hasLibDir)).flatMap
          (depLinkEffects include_path lib_path) := by
  induction deps with
  | nil => rfl
  | cons d ds ih =>
    cases hd : (d.is_dir && d.hasIncludeDir && d.hasLibDir) with
    | true => simp [List.filter_cons, hd, List.flatMap_cons, ih]
    | false => simp [List.filter_cons, hd, List.flatMap_cons, ih, depLinkEffects_eq_nil _ _ d hd]

/-- C8: a dependency entry that is not a directory or lacks the `include`
or the `lib` subdirectory contributes no effect at all (no symlink, no
error), and the whole prefix-preparation run is unchanged when such
dependencies are removed from the scan. -/
theorem create_prefix_skips_incomplete_deps :
    (∀ (include_path lib_path : String) (dep : DepEntry),
        dep.is_dir = false ∨ dep.hasIncludeDir = false ∨ dep.hasLibDir = false →
        depLinkEffects include_path lib_path dep = [])
    ∧ ∀ (rebuild_flag : Bool) (prefix_path : String) (deps : List DepEntry)
        (fs : List String),
        create_prefix_directory rebuild_flag prefix_path deps fs
          = create_prefix_directory rebuild_flag prefix_path
              (deps.filter (fun d => d.is_dir && d.hasIncludeDir && d.hasLibDir)) fs := by
  constructor
  · intro ip lp dep h
    refine depLinkEffects_eq_nil ip lp dep ?_
    rcases h with h | h | h <;> simp [h]
  · intro rb pp deps fs
    unfold create_prefix_directory
    rw [create_prefix_directory_effects, create_prefix_directory_effects,
      flatMap_depLink_filter]

/-- C8 witness: a dependency without a `lib` subdirectory contributes no
effects. -/
theorem create_prefix_skips_incomplete_deps_witness :
    depLinkEffects "/r/prefix/include/" "/r/prefix/lib/"
      ⟨"/r/deps/foo", true, true, false, ["foo.h"], []⟩ = [] :=
  create_prefix_skips_incomplete_deps.1 "/r/prefix/include/" "/r/prefix/lib/"
    ⟨"/r/deps/foo", true, true, false, ["foo.h"], []⟩ (Or.inr (Or.inr rfl))

/-! ### Detection lemmas -/

lemma not_word_of_space (c : Char) (h : isSpaceChar c = true) : isWordChar c = false := by
  simp only [isSpaceChar, Bool.or_eq_true, beq_iff_eq] at h
  rcases h with ((((h | h) | h) | h) | h) | h <;> subst h <;> decide

lemma not_space_of_word (c : Char) (h : isWordChar c = true) : isSpaceChar c = false := by
  cases hs : isSpaceChar c
  · rfl
  · rw [not_word_of_space c hs] at h; cases h

lemma dropWhile_append_all {p : Char → Bool} (ws l : List Char)
    (h : ∀ c ∈ ws, p c = true) : (ws ++ l).dropWhile p = l.dropWhile p := by
  induction ws with
  | nil => rfl
  | cons a as ih =>
    have ha := h a (List.mem_cons_self _ _)
    simp only [List.cons_append, List.dropWhile_cons, ha, if_true]
    exact ih (fun c hc => h c (List.mem_cons_of_mem _ hc))

lemma dropWhile_cons_false {p : Char → Bool} (c : Char) (l : List Char)
    (h : p c = false) : (c :: l).dropWhile p = c :: l := by
  simp [List.dropWhile_cons, h]

lemma takeWhile_append_all {p : Char → Bool} (w l : List Char)
    (h : ∀ c ∈ w, p c = true) : (w ++ l).takeWhile p = w ++ l.takeWhile p := by
  induction w with
  | nil => rfl
  | cons a as ih =>
    have ha := h a (List.mem_cons_self _ _)
    simp only [List.cons_append, List.takeWhile_cons, ha, if_true]
    rw [ih (fun c hc => h c (List.mem_cons_of_mem _ hc))]

lemma matchLitCI_append (pat : List Char) : ∀ (s rest : List Char),
    s.map Char.toLower = pat.map Char.toLower →
    matchLitCI pat (s ++ rest) = some rest := by
  induction pat with
  | nil =>
    intro s rest h
    have hs : s = [] := by
      cases s with
      | nil => rfl
      | cons a as => simp at h
    subst hs
    rfl
  | cons p ps ih =>
    intro s rest h
    cases s with
    | nil => simp at h
    | cons c cs =>
      simp only [List.map_cons, List.cons.injEq] at h
      obtain ⟨h1, h2⟩ := h
      have hb : (p.toLower == c.toLower) = true := beq_iff_eq.mpr h1.symm
      simp only [List.cons_append, matchLitCI, hb, if_true]
      exact ih cs rest h2

lemma takeWhile_word_space_paren (ws3 tail : List Char)
    (h3 : ∀ c ∈ ws3, isSpaceChar c = true) :
    (ws3 ++ ')' :: tail).takeWhile isWordChar = [] := by
  cases ws3 with
  | nil => simp [List.takeWhile_cons, show isWordChar ')' = false from rfl]
  | cons a as =>
    have ha := not_word_of_space a (h3 a (List.mem_cons_self _ _))
    simp [List.takeWhile_cons, ha]

lemma dropWhile_word_space_paren (ws3 tail : List Char)
    (h3 : ∀ c ∈ ws3, isSpaceChar c = true) :
    (ws3 ++ ')' :: tail).dropWhile isWordChar = ws3 ++ ')' :: tail := by
  cases ws3 with
  | nil => exact dropWhile_cons_false _ _ (by decide)
  | cons a as =>
    exact dropWhile_cons_false _ _ (not_word_of_space a (h3 a (List.mem_cons_self _ _)))

lemma matchProjectAt_decl (pk ws1 ws2 w ws3 tail : List Char)
    (hpk : pk.map Char.toLower = "project".data)
    (h1 : ∀ c ∈ ws1, isSpaceChar c = true)
    (h2 : ∀ c ∈ ws2, isSpaceChar c = true)
    (h3 : ∀ c ∈ ws3, isSpaceChar c = true)
    (hw : w ≠ []) (hwc : ∀ c ∈ w, isWordChar c = true) :
    matchProjectAt (pk ++ (ws1 ++ '(' :: (ws2 ++ (w ++ (ws3 ++ ')' :: tail))))) = some w := by
  have hlit : matchLitCI "project".data
      (pk ++ (ws1 ++ '(' :: (ws2 ++ (w ++ (ws3 ++ ')' :: tail)))))
      = some (ws1 ++ '(' :: (ws2 ++ (w ++ (ws3 ++ ')' :: tail)))) := by
    apply matchLitCI_append
    rw [hpk]
    decide
  have hd1 : (ws1 ++ '(' :: (ws2 ++ (w ++ (ws3 ++ ')' :: tail)))).dropWhile isSpaceChar
      = '(' :: (ws2 ++ (w ++ (ws3 ++ ')' :: tail))) := by
    rw [dropWhile_append_all _ _ h1]
    exact dropWhile_cons_false _ _ (by decide)
  obtain ⟨c0, w', rfl⟩ := List.exists_cons_of_ne_nil hw
  have hc0w : isWordChar c0 = true := hwc c0 (List.mem_cons_self _ _)
  have hd2 : (ws2 ++ ((c0 :: w') ++ (ws3 ++ ')' :: tail))).dropWhile isSpaceChar
      = (c0 :: w') ++ (ws3 ++ ')' :: tail) := by
    rw [dropWhile_append_all _ _ h2]
    exact dropWhile_cons_false _ _ (not_space_of_word _ hc0w)
  have htake : ((c0 :: w') ++ (ws3 ++ ')' :: tail)).takeWhile isWordChar = c0 :: w' := by
    rw [takeWhile_append_all _ _ hwc, takeWhile_word_space_paren _ _ h3, List.append_nil]
  have hdropw : ((c0 :: w') ++ (ws3 ++ ')' :: tail)).dropWhile isWordChar
      = ws3 ++ ')' :: tail := by
    rw [dropWhile_append_all _ _ hwc]
    exact dropWhile_word_space_paren _ _ h3
  have hdrops : (ws3 ++ ')' :: tail).dropWhile isSpaceChar = ')' :: tail := by
    rw [dropWhile_append_all _ _ h3]
    exact dropWhile_cons_false _ _ (by decide)
  simp only [matchProjectAt, hlit, hd1, hd2, htake, hdropw, hdrops,
    List.isEmpty_cons, Bool.false_eq_true, if_false]

lemma searchProject_decl (pk ws1 ws2 w ws3 tail : List Char)
    (hpk : pk.map Char.toLower = "project".data)
    (h1 : ∀ c ∈ ws1, isSpaceChar c = true)
    (h2 : ∀ c ∈ ws2, isSpaceChar c = true)
    (h3 : ∀ c ∈ ws3, isSpaceChar c = true)
    (hw : w ≠ []) (hwc : ∀ c ∈ w, isWordChar c = true) :
    searchProject (pk ++ (ws1 ++ '(' :: (ws2 ++ (w ++ (ws3 ++ ')' :: tail))))) = some w := by
  have hm := matchProjectAt_decl pk ws1 ws2 w ws3 tail hpk h1 h2 h3 hw hwc
  have hne : pk ≠ [] := by
    intro h
    rw [h] at hpk
    simp at hpk
  obtain ⟨p0, pk', rfl⟩ := List.exists_cons_of_ne_nil hne
  simp only [List.cons_append] at hm ⊢
  simp only [searchProject, hm]

lemma findSome?_eq_none_iff_forall {α β : Type} (f : α → Option β) (l : List α) :
    l.findSome? f = none ↔ ∀ x ∈ l, f x = none := by
  induction l with
  | nil => simp [List.findSome?_nil]
  | cons a l ih =>
    cases hfa : f a with
    | none => simp [List.findSome?_cons, hfa, ih]
    | some b => simp [List.findSome?_cons, hfa]

lemma findSome?_append_none {α β : Type} (f : α → Option β) (pre rest : List α)
    (h : ∀ l ∈ pre, f l = none) :
    (pre ++ rest).findSome? f = rest.findSome? f := by
  induction pre with
  | nil => rfl
  | cons a l ih =>
    have ha := h a (List.mem_cons_self _ _)
    simp only [List.cons_append, List.findSome?_cons, ha]
    exact ih (fun x hx => h x (List.mem_cons_of_mem _ hx))

/-- C1: for every registered target name, detection on a source tree
whose `CMakeLists.txt` has as its first project-declaration line a
`project(<Name>)` declaration — any capitalization of the keyword and of
the name, optional whitespace around the parentheses and the identifier,
anything after the closing parenthesis — selects the registered target
whose identifier is the lower-cased captured name. -/
theorem detect_registered_project_ok :
    ∀ N ∈ Target.get_target_names,
    ∀ (pre post : List (List Char)) (pk ws1 ws2 w ws3 tail : List Char),
      (∀ l ∈ pre, searchProject l = none) →
      pk.map Char.toLower = "project".data →
      (∀ c ∈ ws1, isSpaceChar c = true) →
      (∀ c ∈ ws2, isSpaceChar c = true) →
      (∀ c ∈ ws3, isSpaceChar c = true) →
      w ≠ [] →
      (∀ c ∈ w, isWordChar c = true) →
      w.map Char.toLower = N.data →
      detect_target
        (pre ++ (pk ++ (ws1 ++ '(' :: (ws2 ++ (w ++ (ws3 ++ ')' :: tail))))) :: post)
        = .ok N := by
  intro N hN pre post pk ws1 ws2 w ws3 tail hpre hpk h1 h2 h3 hw hwc hmap
  have hs := searchProject_decl pk ws1 ws2 w ws3 tail hpk h1 h2 h3 hw hwc
  unfold detect_target
  rw [findSome?_append_none _ _ _ hpre]
  simp only [List.findSome?_cons, hs]
  have heta : String.mk N.data = N := rfl
  rw [hmap, heta, if_pos hN]

/-- C1 witness: the spec's scenario, a `CMakeLists.txt` whose second line
is `PROJECT ( Raze )` (cased keyword, padded identifier), resolving to
the registered target `raze`. -/
theorem detect_registered_project_ok_witness :
    ("raze" ∈ Target.get_target_names) ∧
    detect_target
      (["# comment".data]
        ++ ("PROJECT".data ++ (" ".data ++ '(' :: (" ".data
             ++ ("Raze".data ++ (" ".data ++ ')' :: "\n".data))))) :: [])
      = .ok "raze" :=
  ⟨by decide,
   detect_registered_project_ok "raze" (by decide) ["# comment".data] []
     "PROJECT".data " ".data " ".data "Raze".data " ".data "\n".data
     (by decide) (by decide) (by decide) (by decide) (by decide)
     (by decide) (by decide) (by decide)⟩

/-- C6: target detection fails in exactly two ways — the assertion fires
precisely when no line of the file matches the project-declaration
pattern, and the registry lookup fails precisely when the lower-cased
name captured from the first matching line is not a registered target
identifier; in every failure no target is produced. -/
theorem detect_target_failure_cases :
    ∀ lines : List (List Char),
      (detect_target lines = .error .assertFailed ↔ ∀ l ∈ lines, searchProject l = none)
      ∧ (∀ n, detect_target lines = .error (.keyError n) ↔
          ∃ w, lines.findSome? searchProject = some w
            ∧ n = String.mk (w.map Char.toLower)
            ∧ n ∉ Target.get_target_names) := by
  intro lines
  cases hf : lines.findSome? searchProject with
  | none =>
    refine ⟨?_, ?_⟩
    · rw [← findSome?_eq_none_iff_forall]
      simp [detect_target, hf]
    · intro n
      simp [detect_target, hf]
  | some w =>
    refine ⟨?_, ?_⟩
    · constructor
      · intro h
        exfalso
        simp only [detect_target, hf] at h
        by_cases hm : String.mk (w.map Char.toLower) ∈ Target.get_target_names
        · rw [if_pos hm] at h; cases h
        · rw [if_neg hm] at h; cases h
      · intro hall
        rw [← findSome?_eq_none_iff_forall] at hall
        rw [hall] at hf
        cases hf
    · intro n
      by_cases hm : String.mk (w.map Char.toLower) ∈ Target.get_target_names
      · constructor
        · intro h
          simp only [detect_target, hf] at h
          rw [if_pos hm] at h
          cases h
        · rintro ⟨w1, hw1, hn, hnot⟩
          have hww : w = w1 := by injection hw1
          subst hww
          exact absurd hm (hn ▸ hnot)
      · constructor
        · intro h
          simp only [detect_target, hf] at h
          rw [if_neg hm] at h
          refine ⟨w, rfl, ?_, ?_⟩
          · cases h; rfl
          · cases h; exact hm
        · rintro ⟨w1, hw1, hn, hnot⟩
          have hww : w = w1 := by injection hw1
          subst hww
          simp only [detect_target, hf]
          rw [if_neg hm, hn]


/-- The effect trace of the pipeline stages `run()` executes before the
compilation stage: prefix preparation, source preparation and build-file
generation, in that order. -/
def pre_compile_effects (rebuild_flag : Bool) (prefix_path : String)
    (deps : List DepEntry) (sourceExists : Bool) (url : String)
    (checkout_commit : Option String) (source_path : String)
    (generate xcode : Bool) (build_path : String) (sdk_path : Option String)
    (opts : List (String × String)) (fs : List String) : List Eff :=
  create_prefix_directory_effects rebuild_flag (pathExists fs prefix_path) prefix_path
    (prefix_path ++ "include" ++ osSep) (prefix_path ++ "lib" ++ osSep) deps
  ++ prepare_source_effects sourceExists url checkout_commit source_path
  ++ generate_cmake_effects generate xcode build_path prefix_path source_path sdk_path opts

lemma createdBy_depLink (include_path lib_path : String) (dep : DepEntry) (q : String)
    (hq : q ∈ (depLinkEffects include_path lib_path dep).flatMap createdBy) :
    q ∈ dep.includeEntries.map (fun e => include_path ++ e)
        ++ dep.libEntries.map (fun e => lib_path ++ e) := by
  unfold depLinkEffects at hq
  split at hq
  · simp at hq
  · split at hq
    · simp at hq
    · rw [List.flatMap_append] at hq
      rcases List.mem_append.mp hq with h | h
      · rcases List.mem_flatMap.mp h with ⟨e0, he0, hq0⟩
        rcases List.mem_map.mp he0 with ⟨ename, hen, rfl⟩
        simp only [createdBy, List.mem_singleton] at hq0
        subst hq0
        exact List.mem_append.mpr (Or.inl (List.mem_map.mpr ⟨ename, hen, rfl⟩))
      · rcases List.mem_flatMap.mp h with ⟨e0, he0, hq0⟩
        rcases List.mem_map.mp he0 with ⟨ename, hen, rfl⟩
        simp only [createdBy, List.mem_singleton] at hq0
        subst hq0
        exact List.mem_append.mpr (Or.inr (List.mem_map.mpr ⟨ename, hen, rfl⟩))

lemma createdByPrefixStage (rebuild_flag exists0 : Bool)
    (prefix_path include_path lib_path : String) (deps : List DepEntry) (q : String)
    (hq : q ∈ (create_prefix_directory_effects rebuild_flag exists0 prefix_path
        include_path lib_path deps).flatMap createdBy) :
    q = include_path ∨ q = lib_path
      ∨ ∃ d ∈ deps, q ∈ d.includeEntries.map (fun e => include_path ++ e)
          ++ d.libEntries.map (fun e => lib_path ++ e) := by
  unfold create_prefix_directory_effects at hq
  split at hq
  · simp at hq
  · rw [List.flatMap_append, List.flatMap_append] at hq
    rcases List.mem_append.mp hq with h | h
    · rcases List.mem_append.mp h with h | h
      · exfalso
        split at h <;> simp [createdBy] at h
      · simp [createdBy] at h
        rcases h with h | h
        · exact Or.inl h
        · exact Or.inr (Or.inl h)
    · rcases List.mem_flatMap.mp h with ⟨e0, he0, hq0⟩
      rcases List.mem_flatMap.mp he0 with ⟨d, hd, hed⟩
      exact Or.inr (Or.inr ⟨d, hd,
        createdBy_depLink _ _ d q (List.mem_flatMap.mpr ⟨e0, hed, hq0⟩)⟩)

lemma createdBy_prepare_source (sourceExists : Bool) (url : String)
    (checkout_commit : Option String) (source_path : String) (q : String)
    (hq : q ∈ (prepare_source_effects sourceExists url checkout_commit
        source_path).flatMap createdBy) : q = source_path := by
  unfold prepare_source_effects at hq
  rw [List.flatMap_append] at hq
  rcases List.mem_append.mp hq with h | h
  · split at h
    · simp at h
    · simp [createdBy] at h
      exact h
  · exfalso
    cases checkout_commit <;> simp [createdBy] at h

/-- C10: with the skip-generate flag set the generation stage performs no
action at all (empty effect trace: no directory creation, no `PATH`
mutation, no generator run); the stages before compilation create only
the prefix trees, the dependency symlinks and the source checkout, never
the build directory; hence — as long as the build directory is none of
those paths — it exists when compilation starts only if it already
existed before the invocation. -/
theorem skip_generate_frame :
    ∀ (rebuild_flag : Bool) (prefix_path : String) (deps : List DepEntry)
      (sourceExists : Bool) (url : String) (checkout_commit : Option String)
      (source_path : String) (xcode : Bool) (build_path : String)
      (sdk_path : Option String) (opts : List (String × String)) (fs fs1 : List String),
      generate_cmake_effects false xcode build_path prefix_path source_path sdk_path opts = []
      ∧ (∀ q ∈ (pre_compile_effects rebuild_flag prefix_path deps sourceExists url
            checkout_commit source_path false xcode build_path sdk_path opts fs).flatMap
              createdBy,
          q ∈ (prefix_path ++ "include" ++ osSep) :: (prefix_path ++ "lib" ++ osSep)
              :: source_path
              :: deps.flatMap (fun d =>
                   d.includeEntries.map (fun e => (prefix_path ++ "include" ++ osSep) ++ e)
                   ++ d.libEntries.map (fun e => (prefix_path ++ "lib" ++ osSep) ++ e)))
      ∧ (runEffs fs (pre_compile_effects rebuild_flag prefix_path deps sourceExists url
            checkout_commit source_path false xcode build_path sdk_path opts fs) = .ok fs1 →
         (∀ q ∈ (pre_compile_effects rebuild_flag prefix_path deps sourceExists url
              checkout_commit source_path false xcode build_path sdk_path opts fs).flatMap
                createdBy,
            strPre build_path q = false) →
         pathExists fs1 build_path = true → pathExists fs build_path = true) := by
  intro rb pp deps se url cc sp xc bp sdk opts fs fs1
  refine ⟨by simp [generate_cmake_effects], ?_, ?_⟩
  · intro q hq
    unfold pre_compile_effects at hq
    rw [List.flatMap_append, List.flatMap_append] at hq
    rcases List.mem_append.mp hq with h | h
    · rcases List.mem_append.mp h with h | h
      · rcases createdByPrefixStage _ _ _ _ _ _ _ h with h | h | ⟨d, hd, hmem⟩
        · subst h; exact List.mem_cons_self _ _
        · subst h; exact List.mem_cons_of_mem _ (List.mem_cons_self _ _)
        · exact List.mem_cons_of_mem _ (List.mem_cons_of_mem _ (List.mem_cons_of_mem _
            (List.mem_flatMap.mpr ⟨d, hd, hmem⟩)))
      · have hqs := createdBy_prepare_source _ _ _ _ _ h
        subst hqs
        exact List.mem_cons_of_mem _ (List.mem_cons_of_mem _ (List.mem_cons_self _ _))
    · exfalso
      rw [show generate_cmake_effects false xc bp pp sp sdk opts = [] from by
        simp [generate_cmake_effects]] at h
      simp at h
  · intro hrun hno hex1
    rcases List.any_eq_true.mp hex1 with ⟨r, hr, hpre2⟩
    rcases runEffs_ok_mem _ _ _ hrun r hr with h | h
    · exact pathExists_of_mem fs r bp h hpre2
    · rw [hno r h] at hpre2
      cases hpre2

/-- C10 witness: a concrete skip-generate run over an empty dependency
scan in which the build directory pre-exists. -/
theorem skip_generate_frame_witness :
    (runEffs ["/r/build/gzdoom/make/"]
       (pre_compile_effects false "/r/prefix/" [] false "u" none "/r/source/gzdoom"
         false false "/r/build/gzdoom/make" none [] ["/r/build/gzdoom/make/"])
       = .ok ["/r/source/gzdoom", "/r/prefix/lib/", "/r/prefix/include/",
              "/r/build/gzdoom/make/"])
    ∧ pathExists ["/r/build/gzdoom/make/"] "/r/build/gzdoom/make" = true :=
  ⟨by rfl,
   (skip_generate_frame false "/r/prefix/" [] false "u" none "/r/source/gzdoom"
      false "/r/build/gzdoom/make" none [] ["/r/build/gzdoom/make/"]
      ["/r/source/gzdoom", "/r/prefix/lib/", "/r/prefix/include/",
       "/r/build/gzdoom/make/"]).2.2 (by rfl) (by decide) (by rfl)⟩

end ZDeps
